import Mathlib

/-
Verification of the laborer worker-pool library.

The Go source is shallowly embedded: machine integers become Int, Go
durations and timestamps become Int (nanosecond-like ticks), channels and
goroutine interleavings become an explicit labelled step function on a pool
state record, and fallible operations return Except or Option.  Workers are
represented by the single field the store logic inspects, their lastUsed
timestamp.
-/

namespace Laborer

/-! ### Error taxonomy (errors source file) -/

inductive PoolErr where
  | poolClosed
  | poolOverload
  | invalidPoolSize
  | invalidPoolExpiry
  | invalidPoolFunc
  | timeout
deriving DecidableEq, Repr

/-! ### Options (options source file)

`NewOptions` applies option functions to the defaults; only the fields the
scheduler logic reads are modelled.  `DefaultExpiryDuration` is 10 seconds;
we keep durations abstract as Int ticks. -/

structure Options where
  expiryDuration : Int
  preAlloc : Bool
  nonblocking : Bool
deriving DecidableEq, Repr

def defaultOptions : Options :=
  { expiryDuration := 10, preAlloc := false, nonblocking := false }

/-! ### Constructor validation and queue choice (pool.go NewPool,
pool_func NewPoolWithFunc)

`queueSizeThreshold` is the constant 1000 from pool.go.  The chosen idle
store is recorded as a tag carrying the size argument passed to the
corresponding constructor call. -/

def queueSizeThreshold : Int := 1000

inductive WorkerQueueKind where
  | stack (sizeArg : Int)
  | loopQueue (sizeArg : Int)
deriving DecidableEq, Repr

def WorkerQueueKind.isStack : WorkerQueueKind → Bool
  | .stack _ => true
  | .loopQueue _ => false

/-- Queue selection shared by NewPool and NewPoolWithFunc: size -1 and
bounded sizes below the threshold pick the stack (preAlloc only changes the
size argument), sizes at or above the threshold pick the loop queue. -/
def chooseQueue (size : Int) (preAlloc : Bool) : WorkerQueueKind :=
  if size = -1 then .stack 0
  else if size < queueSizeThreshold then
    (if preAlloc then .stack size else .stack 0)
  else .loopQueue size

structure PoolCfg where
  capacity : Int
  queue : WorkerQueueKind
  opts : Options
deriving DecidableEq, Repr

/-- NewPool from pool.go: reject size 0, then reject a negative expiry
duration, otherwise build the pool with capacity equal to size and the
queue chosen by capacity. -/
def NewPool (size : Int) (opts : Options) : Except PoolErr PoolCfg :=
  if size = 0 then .error .invalidPoolSize
  else if opts.expiryDuration < 0 then .error .invalidPoolExpiry
  else .ok { capacity := size, queue := chooseQueue size opts.preAlloc, opts := opts }

/-- NewPoolWithFunc from the function-pool source: reject size 0, then a
missing callable, then a negative expiry duration; the queue choice is the
same as for the generic pool. -/
def NewPoolWithFunc (size : Int) (pf : Option (Unit → Unit)) (opts : Options) :
    Except PoolErr PoolCfg :=
  if size = 0 then .error .invalidPoolSize
  else if pf.isNone then .error .invalidPoolFunc
  else if opts.expiryDuration < 0 then .error .invalidPoolExpiry
  else .ok { capacity := size, queue := chooseQueue size opts.preAlloc, opts := opts }

/-! ### The expiry sweeper ticker (pool.go cleanExpiredWorkers, first line)

Modelled from the documented behaviour of the Go runtime: time.NewTicker
panics when the interval is not positive.  The sweeper goroutine calls it
with the configured expiry duration before doing anything else. -/

/-- Result of time.NewTicker: error means the runtime panic for a
non-positive interval, ok means a live ticker. -/
def newTicker (d : Int) : Except Unit Unit :=
  if d ≤ 0 then .error () else .ok ()

/-- First action of the cleanExpiredWorkers goroutine: create the ticker
with the pool expiry duration. -/
def cleanExpiredWorkersStart (cfg : PoolCfg) : Except Unit Unit :=
  newTicker cfg.opts.expiryDuration

/-- Sweeper start outcome of a freshly constructed pool, when construction
succeeded. -/
def sweeperStartOf (r : Except PoolErr PoolCfg) : Option (Except Unit Unit) :=
  r.toOption.map cleanExpiredWorkersStart

/-! ### Future (future source file)

The done channel becomes a Bool that is set when the channel is closed; the
sync.Once guard becomes the once flag.  Values of type interface and error
are Option-typed so that the Go zero value nil is representable as none. -/

structure FutState (V E : Type) where
  result : Option V
  err : Option E
  done : Bool
  once : Bool
deriving DecidableEq, Repr

def newFuture {V E : Type} : FutState V E :=
  { result := none, err := none, done := false, once := false }

/-- setResult: the once guard runs the body only on the first call; the
body stores the pair and closes the done channel. -/
def setResult {V E : Type} (f : FutState V E) (r : Option V) (e : Option E) :
    FutState V E :=
  if f.once then f
  else { result := r, err := e, done := true, once := true }

/-- Get blocks on the done channel and then reads the stored pair; none
models a Get that has not yet been released. -/
def FutState.get {V E : Type} (f : FutState V E) : Option (Option V × Option E) :=
  if f.done then some (f.result, f.err) else none

def FutState.isDone {V E : Type} (f : FutState V E) : Bool := f.done

/-- Fold a whole sequence of setResult calls over a future. -/
def setAll {V E : Type} (f : FutState V E) (calls : List (Option V × Option E)) :
    FutState V E :=
  calls.foldl (fun g c => setResult g c.1 c.2) f

lemma setResult_once {V E : Type} (f : FutState V E) (r : Option V) (e : Option E)
    (h : f.once = true) : setResult f r e = f := by
  simp [setResult, h]

lemma setAll_once {V E : Type} (f : FutState V E)
    (calls : List (Option V × Option E)) (h : f.once = true) :
    setAll f calls = f := by
  induction calls with
  | nil => rfl
  | cons c rest ih =>
      simp only [setAll, List.foldl_cons, setResult_once f c.1 c.2 h]
      exact ih

/-! ### Worker stack (worker stack source file)

Idle workers are kept in a growable sequence; the store logic only reads
the lastUsed timestamp of each worker, so a stored worker is its lastUsed
value.  insert appends at the top, detach removes the top, refresh scans
for the first index whose lastUsed is not Before the horizon and removes
the prefix in front of it. -/

namespace workerStack

def insert (items : List Int) (w : Int) : List Int := items ++ [w]

def detach (items : List Int) : Option Int × List Int :=
  (items.getLast?, items.dropLast)

/-- refresh with the sweep moment made explicit: expiryTime is now - d and
a worker expires when lastUsed.Before(expiryTime), that is strictly less.
Returns the removed (finished) prefix and the surviving items. -/
def refresh (now d : Int) (items : List Int) : List Int × List Int :=
  (items.takeWhile (fun w => decide (w < now - d)),
   items.dropWhile (fun w => decide (w < now - d)))

end workerStack

/-! ### Clocked stack traces (pool.go putWorker and getWorker around the
stack store)

putWorker stamps lastUsed with the current time and then inserts, getWorker
detaches from the top, the sweeper calls refresh with the current time.
A trace interleaves these with clock advances. -/

inductive StackEv where
  | tick (dt : Nat)
  | push
  | pop
  | sweep (d : Int)
deriving DecidableEq, Repr

structure StackSt where
  clock : Int
  items : List Int
deriving DecidableEq, Repr

def stackStep (s : StackSt) : StackEv → StackSt
  | .tick dt => { s with clock := s.clock + dt }
  | .push => { s with items := workerStack.insert s.items s.clock }
  | .pop => { s with items := (workerStack.detach s.items).2 }
  | .sweep d => { s with items := (workerStack.refresh s.clock d s.items).2 }

def runStack (evs : List StackEv) : StackSt :=
  evs.foldl stackStep { clock := 0, items := [] }

/-- Invariant carried through stack traces: the idle sequence is sorted by
lastUsed and every stamp is at or before the clock. -/
def StackInv (s : StackSt) : Prop :=
  s.items.Pairwise (· ≤ ·) ∧ ∀ x ∈ s.items, x ≤ s.clock

lemma stackStep_inv (s : StackSt) (ev : StackEv) (h : StackInv s) :
    StackInv (stackStep s ev) := by
  obtain ⟨hs, hc⟩ := h
  cases ev with
  | tick dt =>
      refine ⟨hs, fun x hx => ?_⟩
      have := hc x hx
      have hdt : (0 : Int) ≤ (dt : Int) := Int.ofNat_nonneg dt
      show x ≤ s.clock + (dt : Int)
      omega
  | push =>
      simp only [stackStep]
      constructor
      · rw [workerStack.insert, List.pairwise_append]
        refine ⟨hs, List.pairwise_singleton _ _, ?_⟩
        intro x hx y hy
        rw [List.mem_singleton] at hy
        subst hy
        exact hc x hx
      · intro x hx
        rw [workerStack.insert, List.mem_append, List.mem_singleton] at hx
        rcases hx with hx | hx
        · exact hc x hx
        · subst hx; exact le_refl _
  | pop =>
      simp only [stackStep, workerStack.detach]
      refine ⟨hs.sublist (List.dropLast_sublist _), fun x hx => ?_⟩
      exact hc x ((List.dropLast_sublist _).mem hx)
  | sweep d =>
      simp only [stackStep, workerStack.refresh]
      refine ⟨hs.sublist (List.dropWhile_sublist _), fun x hx => ?_⟩
      exact hc x ((List.dropWhile_sublist _).mem hx)

lemma runStack_inv (evs : List StackEv) : StackInv (runStack evs) := by
  have h0 : StackInv { clock := 0, items := [] } := by
    exact ⟨List.Pairwise.nil, by intro x hx; cases hx⟩
  rw [runStack]
  generalize hstart : ({ clock := 0, items := [] } : StackSt) = s0 at h0
  clear hstart
  induction evs generalizing s0 with
  | nil => exact h0
  | cons ev rest ih =>
      rw [List.foldl_cons]
      exact ih _ (stackStep_inv _ _ h0)

/-! ### Sorted scans

On a sorted sequence a prefix scan with a downward-closed predicate removes
exactly the satisfying elements. -/

lemma takeWhile_eq_filter_of_sorted (p : Int → Bool)
    (hp : ∀ x y : Int, y ≤ x → p x = true → p y = true) :
    ∀ l : List Int, l.Pairwise (· ≤ ·) → l.takeWhile p = l.filter p := by
  intro l
  induction l with
  | nil => intro _; rfl
  | cons a l ih =>
      intro hs
      rw [List.pairwise_cons] at hs
      by_cases ha : p a = true
      · rw [List.takeWhile_cons_of_pos ha, List.filter_cons_of_pos ha, ih hs.2]
      · rw [List.takeWhile_cons_of_neg (by simpa using ha),
          List.filter_cons_of_neg (by simpa using ha)]
        have : l.filter p = [] := by
          rw [List.filter_eq_nil_iff]
          intro x hx hpx
          exact ha (hp x a (hs.1 x hx) hpx)
        rw [this]

lemma dropWhile_eq_filter_not_of_sorted (p : Int → Bool)
    (hp : ∀ x y : Int, y ≤ x → p x = true → p y = true) :
    ∀ l : List Int, l.Pairwise (· ≤ ·) →
      l.dropWhile p = l.filter (fun x => !(p x)) := by
  intro l
  induction l with
  | nil => intro _; rfl
  | cons a l ih =>
      intro hs
      rw [List.pairwise_cons] at hs
      by_cases ha : p a = true
      · rw [List.dropWhile_cons_of_pos ha, List.filter_cons_of_neg (by simp [ha]),
          ih hs.2]
      · rw [List.dropWhile_cons_of_neg (by simpa using ha),
          List.filter_cons_of_pos (by simp [ha])]
        have : l.filter (fun x => !(p x)) = l := by
          rw [List.filter_eq_self]
          intro x hx
          simp only [Bool.not_eq_true']
          by_contra hpx
          simp only [Bool.not_eq_false] at hpx
          exact ha (hp x a (hs.1 x hx) hpx)
        rw [this]

/-! ### Worker loop queue (loop queue source file)

A fixed-size circular buffer with head, tail and a full flag.  Slots are
Option-valued: none is a cleared (nil) slot.  refresh walks from the head,
reclaiming each worker whose lastUsed does not come After the horizon,
clearing its slot and advancing head, and stops at the first slot that is
nil or holds a non-expired worker. -/

structure loopQueue where
  items : List (Option Int)
  head : Nat
  tail : Nat
  size : Nat
  isFull : Bool
deriving DecidableEq, Repr

namespace loopQueue

def newWorkerLoopQueue (size : Nat) : loopQueue :=
  { items := List.replicate size none, head := 0, tail := 0, size := size,
    isFull := false }

def isEmpty (q : loopQueue) : Bool :=
  q.head == q.tail && !q.isFull

def len (q : loopQueue) : Nat :=
  if q.isFull then q.size
  else if q.head ≤ q.tail then q.tail - q.head
  else q.size - q.head + q.tail

def insert (q : loopQueue) (w : Int) : Except PoolErr loopQueue :=
  if q.isFull then .error .poolOverload
  else
    let items := q.items.set q.tail (some w)
    let t := q.tail + 1
    let tail := if t = q.size then 0 else t
    .ok { q with items := items, tail := tail, isFull := tail == q.head }

def detach (q : loopQueue) : Option Int × loopQueue :=
  if q.isEmpty then (none, q)
  else
    let w := q.items.getD q.head none
    let h := q.head + 1
    ( w,
      { q with items := q.items.set q.head none,
               head := if h = q.size then 0 else h,
               isFull := false } )

/-- One reclamation step of the refresh loop: clear the head slot, advance
head with wraparound, drop the full flag. -/
def removeFront (q : loopQueue) : loopQueue :=
  { q with items := q.items.set q.head none,
           head := if q.head + 1 = q.size then 0 else q.head + 1,
           isFull := false }

/-- Body of the refresh loop, with fuel bounding the iteration count.  Each
iteration removes one element, so fuel equal to the length at entry makes
the bounded recursion agree with the source while-loop, which exits on
isEmpty at the latest.  Returns the reclaimed indices, the reclaimed
workers in reclamation order, and the final queue. -/
def refreshLoop (e : Int) : Nat → loopQueue → List Nat × List Int × loopQueue
  | 0, q => ([], [], q)
  | fuel + 1, q =>
    if q.isEmpty then ([], [], q)
    else
      match q.items.getD q.head none with
      | none => ([], [], q)
      | some w =>
        if e < w then ([], [], q)
        else
          let r := refreshLoop e fuel q.removeFront
          (q.head :: r.1, w :: r.2.1, r.2.2)

/-- refresh with the sweep moment made explicit: expiryTime is now - d and
the walk stops at the first worker whose lastUsed is After it, that is
strictly greater. -/
def refresh (now d : Int) (q : loopQueue) : List Nat × List Int × loopQueue :=
  if q.isEmpty then ([], [], q) else refreshLoop (now - d) q.len q

/-- Live contents of the ring in FIFO order from head. -/
def live (q : loopQueue) : List (Option Int) :=
  if q.isFull then q.items.drop q.head ++ q.items.take q.head
  else if q.head ≤ q.tail then (q.items.take q.tail).drop q.head
  else q.items.drop q.head ++ q.items.take q.tail

/-- Shape well-formedness of the ring, as maintained by the queue
operations on a queue built with a positive size. -/
structure WF (q : loopQueue) : Prop where
  len_items : q.items.length = q.size
  head_lt : q.head < q.size
  tail_lt : q.tail < q.size
  full_eq : q.isFull = true → q.head = q.tail

lemma live_length (q : loopQueue) (hwf : q.WF) : q.live.length = q.len := by
  obtain ⟨hl, hh, ht, hf⟩ := hwf
  rw [live, len]
  by_cases hfull : q.isFull = true
  · rw [if_pos hfull, if_pos hfull, List.length_append, List.length_drop,
      List.length_take, hl]
    omega
  · rw [if_neg hfull, if_neg hfull]
    by_cases hht : q.head ≤ q.tail
    · rw [if_pos hht, if_pos hht, List.length_drop, List.length_take, hl]
      omega
    · rw [if_neg hht, if_neg hht, List.length_append, List.length_drop,
        List.length_take, hl]
      omega

lemma live_of_isEmpty (q : loopQueue) (hwf : q.WF) (he : q.isEmpty = true) :
    q.live = [] := by
  obtain ⟨hl, hh, ht, _⟩ := hwf
  rw [isEmpty, Bool.and_eq_true, beq_iff_eq, Bool.not_eq_true'] at he
  rw [live, if_neg (by simp [he.2]), if_pos (le_of_eq he.1)]
  apply List.drop_eq_nil_of_le
  rw [List.length_take, hl]
  omega

lemma removeFront_items (q : loopQueue) :
    q.removeFront.items = q.items.set q.head none := rfl

lemma removeFront_head (q : loopQueue) :
    q.removeFront.head = if q.head + 1 = q.size then 0 else q.head + 1 := rfl

lemma removeFront_tail (q : loopQueue) : q.removeFront.tail = q.tail := rfl

lemma removeFront_size (q : loopQueue) : q.removeFront.size = q.size := rfl

lemma removeFront_isFull (q : loopQueue) : q.removeFront.isFull = false := rfl

lemma live_of_full (q : loopQueue) (hf : q.isFull = true) :
    q.live = q.items.drop q.head ++ q.items.take q.head := by
  rw [live, if_pos hf]

lemma live_of_le (q : loopQueue) (hf : q.isFull = false)
    (hht : q.head ≤ q.tail) :
    q.live = (q.items.take q.tail).drop q.head := by
  rw [live, if_neg (by simp [hf]), if_pos hht]

lemma live_of_gt (q : loopQueue) (hf : q.isFull = false)
    (hht : ¬ q.head ≤ q.tail) :
    q.live = q.items.drop q.head ++ q.items.take q.tail := by
  rw [live, if_neg (by simp [hf]), if_neg hht]

lemma removeFront_spec (q : loopQueue) (hwf : q.WF) (hne : q.isEmpty = false) :
    q.live = q.items.getD q.head none :: q.removeFront.live ∧ q.removeFront.WF := by
  obtain ⟨hl, hh, ht, hf⟩ := hwf
  have hhl : q.head < q.items.length := by rw [hl]; exact hh
  have hgd : q.items.getD q.head none = q.items[q.head] :=
    List.getD_eq_getElem _ _ hhl
  constructor
  · rw [hgd]
    by_cases hfull : q.isFull = true
    · have hft : q.head = q.tail := hf hfull
      rw [live_of_full q hfull]
      by_cases h1 : q.head + 1 = q.size
      · have hrh : q.removeFront.head = 0 := by rw [removeFront_head, if_pos h1]
        rw [live_of_le _ (removeFront_isFull q) (by rw [hrh]; exact Nat.zero_le _),
          removeFront_tail, ← hft, removeFront_items, hrh, List.drop_zero,
          List.set_take,
          List.set_eq_of_length_le (by rw [List.length_take, hl]; omega),
          List.drop_eq_getElem_cons hhl,
          List.drop_eq_nil_of_le (by omega : q.items.length ≤ q.head + 1)]
        simp
      · have hrh : q.removeFront.head = q.head + 1 := by
          rw [removeFront_head, if_neg h1]
        rw [live_of_gt _ (removeFront_isFull q)
            (by rw [hrh, removeFront_tail, ← hft]; omega),
          removeFront_tail, ← hft, removeFront_items, hrh,
          List.drop_set, if_pos (Nat.lt_succ_self _),
          List.set_take,
          List.set_eq_of_length_le (by rw [List.length_take, hl]; omega),
          List.drop_eq_getElem_cons hhl, List.cons_append]
    · have hfb : q.isFull = false := Bool.eq_false_iff.mpr hfull
      have hnet : q.head ≠ q.tail := by
        rw [isEmpty, Bool.and_eq_false_iff] at hne
        rcases hne with hne | hne
        · exact fun hc => by simp [hc] at hne
        · simp at hne
          exact absurd hne hfull
      by_cases hht : q.head ≤ q.tail
      · have hlt : q.head < q.tail := lt_of_le_of_ne hht hnet
        have h1 : q.head + 1 ≠ q.size := by omega
        have hrh : q.removeFront.head = q.head + 1 := by
          rw [removeFront_head, if_neg h1]
        rw [live_of_le q hfb hht,
          live_of_le _ (removeFront_isFull q)
            (by rw [hrh, removeFront_tail]; omega),
          removeFront_tail, removeFront_items, hrh,
          List.set_take, List.drop_set, if_pos (Nat.lt_succ_self _),
          List.drop_eq_getElem_cons
            (show q.head < (q.items.take q.tail).length by
              rw [List.length_take, hl]; omega),
          List.getElem_take]
      · have hth : q.tail < q.head := Nat.lt_of_not_le hht
        rw [live_of_gt q hfb hht]
        by_cases h1 : q.head + 1 = q.size
        · have hrh : q.removeFront.head = 0 := by
            rw [removeFront_head, if_pos h1]
          rw [live_of_le _ (removeFront_isFull q)
              (by rw [hrh]; exact Nat.zero_le _),
            removeFront_tail, removeFront_items, hrh, List.drop_zero,
            List.set_take,
            List.set_eq_of_length_le (by rw [List.length_take, hl]; omega),
            List.drop_eq_getElem_cons hhl,
            List.drop_eq_nil_of_le (by omega : q.items.length ≤ q.head + 1)]
          simp
        · have hrh : q.removeFront.head = q.head + 1 := by
            rw [removeFront_head, if_neg h1]
          rw [live_of_gt _ (removeFront_isFull q)
              (by rw [hrh, removeFront_tail]; omega),
            removeFront_tail, removeFront_items, hrh,
            List.drop_set, if_pos (Nat.lt_succ_self _),
            List.set_take,
            List.set_eq_of_length_le (by rw [List.length_take, hl]; omega),
            List.drop_eq_getElem_cons hhl, List.cons_append]
  · refine ⟨?_, ?_, ht, ?_⟩
    · rw [removeFront_items, List.length_set, hl, removeFront_size]
    · rw [removeFront_head, removeFront_size]
      by_cases h1 : q.head + 1 = q.size
      · rw [if_pos h1]; omega
      · rw [if_neg h1]; omega
    · intro hc
      rw [removeFront_isFull] at hc
      cases hc

lemma removeFront_len (q : loopQueue) (hwf : q.WF) (hne : q.isEmpty = false) :
    q.removeFront.len + 1 = q.len := by
  obtain ⟨hcons, hwf'⟩ := removeFront_spec q hwf hne
  rw [← live_length _ hwf', ← live_length _ hwf, hcons, List.length_cons]

lemma refreshLoop_zero (e : Int) (q : loopQueue) :
    refreshLoop e 0 q = ([], [], q) := rfl

lemma refreshLoop_succ (e : Int) (fuel : Nat) (q : loopQueue) :
    refreshLoop e (fuel + 1) q =
      if q.isEmpty then ([], [], q)
      else
        match q.items.getD q.head none with
        | none => ([], [], q)
        | some w =>
          if e < w then ([], [], q)
          else
            let r := refreshLoop e fuel q.removeFront
            (q.head :: r.1, w :: r.2.1, r.2.2) := rfl

lemma refreshLoop_spec (e : Int) :
    ∀ (fuel : Nat) (q : loopQueue) (ws : List Int),
      q.WF → q.live = ws.map some → ws.length ≤ fuel →
      (refreshLoop e fuel q).2.1 = ws.takeWhile (fun w => decide (w ≤ e)) ∧
      (refreshLoop e fuel q).2.2.live
        = (ws.dropWhile (fun w => decide (w ≤ e))).map some ∧
      (refreshLoop e fuel q).2.2.WF := by
  intro fuel
  induction fuel with
  | zero =>
      intro q ws hwf hlive hle
      have hws : ws = [] := List.eq_nil_of_length_eq_zero (Nat.le_zero.mp hle)
      subst hws
      rw [refreshLoop_zero]
      exact ⟨rfl, by simpa using hlive, hwf⟩
  | succ fuel ih =>
      intro q ws hwf hlive hle
      by_cases he : q.isEmpty = true
      · have h0 : q.live = [] := live_of_isEmpty q hwf he
        have hws : ws = [] := by
          cases ws with
          | nil => rfl
          | cons a l => rw [hlive] at h0; simp at h0
        subst hws
        rw [refreshLoop_succ, if_pos he]
        exact ⟨rfl, by simpa using hlive, hwf⟩
      · have hne : q.isEmpty = false := Bool.eq_false_iff.mpr he
        obtain ⟨hcons, hwf'⟩ := removeFront_spec q hwf hne
        cases ws with
        | nil =>
            rw [hlive] at hcons
            simp at hcons
        | cons w ws0 =>
            rw [hlive] at hcons
            simp only [List.map_cons, List.cons.injEq] at hcons
            obtain ⟨hgd, hlive'⟩ := hcons
            rw [refreshLoop_succ, if_neg he, ← hgd]
            by_cases hew : e < w
            · have hpw : decide (w ≤ e) = false := by
                simp [not_le.mpr hew]
              dsimp only
              rw [if_pos hew]
              refine ⟨by rw [List.takeWhile_cons_of_neg (by simp [hpw])], ?_, hwf⟩
              rw [List.dropWhile_cons_of_neg (by simp [hpw])]
              exact hlive
            · have hpw : decide (w ≤ e) = true := by
                simp [le_of_not_lt hew]
              have hrec := ih q.removeFront ws0 hwf' hlive'.symm
                (by simpa using Nat.le_of_succ_le_succ hle)
              dsimp only
              rw [if_neg hew]
              dsimp only
              refine ⟨?_, ?_, ?_⟩
              · rw [List.takeWhile_cons_of_pos (by simp [hpw]), hrec.1]
              · rw [List.dropWhile_cons_of_pos (by simp [hpw])]
                exact hrec.2.1
              · exact hrec.2.2

lemma refresh_spec (now d : Int) (q : loopQueue) (ws : List Int)
    (hwf : q.WF) (hlive : q.live = ws.map some) :
    (refresh now d q).2.1 = ws.takeWhile (fun w => decide (w ≤ now - d)) ∧
    (refresh now d q).2.2.live
      = (ws.dropWhile (fun w => decide (w ≤ now - d))).map some ∧
    (refresh now d q).2.2.WF := by
  rw [refresh]
  by_cases he : q.isEmpty = true
  · have h0 : q.live = [] := live_of_isEmpty q hwf he
    have hws : ws = [] := by
      cases ws with
      | nil => rfl
      | cons a l => rw [hlive] at h0; simp at h0
    subst hws
    rw [if_pos he]
    exact ⟨rfl, by simpa using hlive, hwf⟩
  · rw [if_neg he]
    exact refreshLoop_spec (now - d) q.len q ws hwf hlive
      (by rw [← live_length q hwf, hlive, List.length_map])

end loopQueue

/-! ### Pool scheduler semantics (pool.go and worker.go)

Small-capacity pools use the stack store, so the idle store of the state is
the stack content of lastUsed stamps (head oldest, top newest).  Each busy
worker is the payload sitting in, or taken from, its single-slot inbox:
some for a real task, none for the nil sentinel.  A label names one atomic
code path together with the scheduler choices it depends on; stepFn returns
none when that path is not enabled.  The function-pool scheduler in the
function-pool source file is line for line the same protocol with args in
place of task, so this one model covers both flavours. -/

inductive SubmitRes where
  | ok
  | closedErr
  | overload
deriving DecidableEq, Repr

structure PoolState where
  capacity : Int
  nonblocking : Bool
  expiry : Int
  clock : Int
  running : Int
  closed : Bool
  idle : List Int
  busy : List (Option Unit)
  dying : Nat
  waiting : Nat
  done : Nat
deriving DecidableEq, Repr

/-- Pool state right after NewPool returned: open, no workers, clock zero. -/
def initPool (capacity : Int) (nonblocking : Bool) (expiry : Int) : PoolState :=
  { capacity := capacity, nonblocking := nonblocking, expiry := expiry,
    clock := 0, running := 0, closed := false, idle := [], busy := [],
    dying := 0, waiting := 0, done := 0 }

inductive Lbl where
  /-- Time advances. -/
  | tick (dt : Nat)
  /-- Submit sees IsClosed and returns ErrPoolClosed. -/
  | submitClosed
  /-- Submit, getWorker detaches an idle worker, the payload goes to its
  inbox, Submit returns nil. -/
  | submitReuse (t : Option Unit)
  /-- Submit, the store is empty and running is below capacity: a worker is
  spawned, running is incremented, the payload goes to its inbox. -/
  | submitCreate (t : Option Unit)
  /-- Submit in non-blocking mode at saturation: getWorker returns nil and
  Submit returns ErrPoolOverload. -/
  | submitOverload
  /-- Submit in blocking mode at saturation: waiting is incremented and the
  caller waits on the condition variable. -/
  | blockEnter
  /-- A blocked submitter is signalled, the pool is open and detach finds a
  worker: the call completes with nil error. -/
  | wakeReuse (t : Option Unit)
  /-- A blocked submitter is signalled, the pool is open but detach finds
  the store empty: getWorker returns nil and Submit returns
  ErrPoolOverload. -/
  | wakeEmpty
  /-- A blocked submitter is signalled after shutdown: getWorker returns
  nil and Submit returns ErrPoolOverload. -/
  | wakeClosed
  /-- Worker at position i finishes its task and putWorker succeeds: the
  worker re-enters the store stamped with the current time. -/
  | taskDone (i : Nat)
  /-- Worker at position i finishes its task but putWorker refuses because
  the pool closed: the loop returns and the deferred handler decrements
  running. -/
  | taskDoneRefused (i : Nat)
  /-- Worker at position i reads the nil sentinel from its inbox: the loop
  returns without executing and the deferred handler decrements running. -/
  | recvSentinel (i : Nat)
  /-- The task of worker i panics: the deferred handler decrements running
  and signals the condition variable. -/
  | taskPanic (i : Nat)
  /-- One tick of cleanExpiredWorkers: refresh removes the expired prefix
  and finishes those workers, then the sweeper decrements running by their
  number.  The finished workers go to dying: each of their goroutines still
  has its own deferred decrement to run. -/
  | sweep
  /-- The goroutine of a finished worker observes its closed inbox, leaves
  its loop and runs the deferred decrement of running. -/
  | dyingExit
  /-- Release: compare-and-swap the state to closed; on success drain the
  idle store, finishing every idle worker. -/
  | releaseCall
deriving DecidableEq, Repr

/-- Error result of the whole Submit (or Invoke) call carried by a label,
when the label ends such a call. -/
def Lbl.result : Lbl → Option SubmitRes
  | .submitClosed => some .closedErr
  | .submitReuse _ => some .ok
  | .submitCreate _ => some .ok
  | .submitOverload => some .overload
  | .wakeReuse _ => some .ok
  | .wakeEmpty => some .overload
  | .wakeClosed => some .overload
  | _ => none

/-- Labels that can begin a Submit (or Invoke) call entered after the
previous steps of the trace. -/
def Lbl.isSubmitEntry : Lbl → Bool
  | .submitClosed => true
  | .submitReuse _ => true
  | .submitCreate _ => true
  | .submitOverload => true
  | .blockEnter => true
  | _ => false

/-- Release from pool.go: the CAS fails on a closed pool and nothing
happens; otherwise the pool is marked closed and reset finishes every idle
worker, whose goroutines then each run their deferred decrement. -/
def releaseFn (s : PoolState) : PoolState :=
  if s.closed then s
  else { s with closed := true, idle := [],
                dying := s.dying + s.idle.length }

/-- One atomic step of the scheduler; none when the label is not enabled in
this state. -/
def stepFn (s : PoolState) : Lbl → Option PoolState
  | .tick dt => some { s with clock := s.clock + (dt : Int) }
  | .submitClosed => if s.closed then some s else none
  | .submitReuse t =>
      if s.closed then none
      else
        match (workerStack.detach s.idle).1 with
        | none => none
        | some _ =>
            some { s with idle := (workerStack.detach s.idle).2,
                          busy := t :: s.busy }
  | .submitCreate t =>
      if !s.closed && s.idle.isEmpty
          && (s.capacity == -1 || s.running < s.capacity) then
        some { s with running := s.running + 1, busy := t :: s.busy }
      else none
  | .submitOverload =>
      if !s.closed && s.idle.isEmpty && s.nonblocking
          && !(s.capacity == -1) && s.capacity ≤ s.running then
        some s
      else none
  | .blockEnter =>
      if !s.closed && s.idle.isEmpty && !s.nonblocking
          && !(s.capacity == -1) && s.capacity ≤ s.running then
        some { s with waiting := s.waiting + 1 }
      else none
  | .wakeReuse t =>
      if 0 < s.waiting && !s.closed then
        match (workerStack.detach s.idle).1 with
        | none => none
        | some _ =>
            some { s with waiting := s.waiting - 1,
                          idle := (workerStack.detach s.idle).2,
                          busy := t :: s.busy }
      else none
  | .wakeEmpty =>
      if 0 < s.waiting && !s.closed && s.idle.isEmpty then
        some { s with waiting := s.waiting - 1 }
      else none
  | .wakeClosed =>
      if 0 < s.waiting && s.closed then
        some { s with waiting := s.waiting - 1 }
      else none
  | .taskDone i =>
      match s.busy.get? i with
      | some (some _) =>
          if s.closed then none
          else
            some { s with busy := s.busy.eraseIdx i,
                          idle := workerStack.insert s.idle s.clock,
                          done := s.done + 1 }
      | _ => none
  | .taskDoneRefused i =>
      match s.busy.get? i with
      | some (some _) =>
          if s.closed then
            some { s with busy := s.busy.eraseIdx i,
                          running := s.running - 1, done := s.done + 1 }
          else none
      | _ => none
  | .recvSentinel i =>
      match s.busy.get? i with
      | some none =>
          some { s with busy := s.busy.eraseIdx i,
                        running := s.running - 1 }
      | _ => none
  | .taskPanic i =>
      match s.busy.get? i with
      | some (some _) =>
          some { s with busy := s.busy.eraseIdx i,
                        running := s.running - 1 }
      | _ => none
  | .sweep =>
      if s.closed then none
      else
        some { s with
          idle := (workerStack.refresh s.clock s.expiry s.idle).2,
          running := s.running
            - ((workerStack.refresh s.clock s.expiry s.idle).1.length : Int),
          dying := s.dying
            + (workerStack.refresh s.clock s.expiry s.idle).1.length }
  | .dyingExit =>
      if 0 < s.dying then
        some { s with dying := s.dying - 1, running := s.running - 1 }
      else none
  | .releaseCall => some (releaseFn s)

/-- Run a whole schedule of labels; none when some label is not enabled. -/
def runTrace (s : PoolState) : List Lbl → Option PoolState
  | [] => some s
  | l :: ls =>
      match stepFn s l with
      | some s1 => runTrace s1 ls
      | none => none

/-! ### Claim theorems -/

/-- C6: construction fails, producing no pool value, exactly when size is 0
(InvalidPoolSize, for both pool flavours), when the expiry duration is
negative (InvalidPoolExpiry), or when the function pool is built without a
callable (InvalidPoolFunc); size -1 is accepted and yields the unbounded
pool with capacity -1. -/
theorem C6_construction_validation :
    (∀ (size : Int) (opts : Options),
      ((NewPool size opts).isOk ↔ size ≠ 0 ∧ 0 ≤ opts.expiryDuration) ∧
      (NewPool size opts = .error .invalidPoolSize ↔ size = 0) ∧
      (NewPool size opts = .error .invalidPoolExpiry ↔
        size ≠ 0 ∧ opts.expiryDuration < 0)) ∧
    (∀ (size : Int) (pf : Option (Unit → Unit)) (opts : Options),
      ((NewPoolWithFunc size pf opts).isOk ↔
        size ≠ 0 ∧ pf.isSome ∧ 0 ≤ opts.expiryDuration) ∧
      (NewPoolWithFunc size pf opts = .error .invalidPoolSize ↔ size = 0) ∧
      (NewPoolWithFunc size pf opts = .error .invalidPoolFunc ↔
        size ≠ 0 ∧ pf = none) ∧
      (NewPoolWithFunc size pf opts = .error .invalidPoolExpiry ↔
        size ≠ 0 ∧ pf.isSome ∧ opts.expiryDuration < 0)) ∧
    (∀ opts : Options, 0 ≤ opts.expiryDuration →
      ∃ cfg : PoolCfg, NewPool (-1) opts = .ok cfg ∧ cfg.capacity = -1) := by
  refine ⟨?_, ?_, ?_⟩
  · intro size opts
    rw [NewPool]
    split_ifs with h1 h2 <;>
      simp_all [Except.isOk, Except.toBool]
  · intro size pf opts
    rw [NewPoolWithFunc]
    split_ifs with h1 h2 h3 <;>
      simp_all [Except.isOk, Except.toBool, Option.isNone_iff_eq_none,
        Option.isSome_iff_ne_none]
  · intro opts hd
    refine ⟨{ capacity := -1, queue := chooseQueue (-1) opts.preAlloc,
              opts := opts }, ?_, rfl⟩
    rw [NewPool, if_neg (by omega), if_neg (by omega)]

/-- C6 witness: the unbounded constructor call at the default options. -/
theorem C6_construction_validation_witness :
    (0 : Int) ≤ defaultOptions.expiryDuration ∧
    ∃ cfg : PoolCfg, NewPool (-1) defaultOptions = .ok cfg ∧
      cfg.capacity = -1 :=
  ⟨by decide, C6_construction_validation.2.2 defaultOptions (by decide)⟩

lemma chooseQueue_isStack (size : Int) (pa : Bool) :
    (chooseQueue size pa).isStack = true ↔ size = -1 ∨ size < 1000 := by
  rw [chooseQueue, queueSizeThreshold]
  split_ifs with h1 h2 h3 <;>
    simp_all [WorkerQueueKind.isStack]

/-- C8: for every accepted size, the store is chosen by the fixed threshold
1000: size -1 and every bounded size strictly below 1000 select the stack,
every size at or above 1000 selects the ring, for both constructors. -/
theorem C8_queue_threshold :
    ∀ (size : Int) (opts : Options) (cfg : PoolCfg),
      (NewPool size opts = .ok cfg →
        (cfg.queue.isStack = true ↔ size = -1 ∨ size < 1000)) ∧
      (∀ pf : Option (Unit → Unit), NewPoolWithFunc size pf opts = .ok cfg →
        (cfg.queue.isStack = true ↔ size = -1 ∨ size < 1000)) := by
  intro size opts cfg
  constructor
  · intro h
    rw [NewPool] at h
    split_ifs at h
    injection h with h
    rw [← h]
    exact chooseQueue_isStack size opts.preAlloc
  · intro pf h
    rw [NewPoolWithFunc] at h
    split_ifs at h
    injection h with h
    rw [← h]
    exact chooseQueue_isStack size opts.preAlloc

/-- C8 witness: capacity 5 picks the stack, capacity 1000 picks the ring. -/
theorem C8_queue_threshold_witness :
    NewPool 5 defaultOptions
      = .ok { capacity := 5, queue := .stack 0, opts := defaultOptions } ∧
    (((.stack 0 : WorkerQueueKind).isStack = true) ↔
      (5 : Int) = -1 ∨ (5 : Int) < 1000) ∧
    NewPool 1000 defaultOptions
      = .ok { capacity := 1000, queue := .loopQueue 1000,
              opts := defaultOptions } ∧
    (((.loopQueue 1000 : WorkerQueueKind).isStack = true) ↔
      (1000 : Int) = -1 ∨ (1000 : Int) < 1000) :=
  ⟨rfl,
   (C8_queue_threshold 5 defaultOptions
      { capacity := 5, queue := .stack 0, opts := defaultOptions }).1 rfl,
   rfl,
   (C8_queue_threshold 1000 defaultOptions
      { capacity := 1000, queue := .loopQueue 1000,
        opts := defaultOptions }).1 rfl⟩

/-- C9: construction accepts a zero expiry duration, because validation only
rejects strictly negative ones, but the sweeper begins by creating a ticker
with that duration, and the ticker rejects every non-positive interval with
a panic, so the sweeper is only safe when the expiry duration is strictly
positive. -/
theorem C9_zero_expiry_ticker_panic :
    (∀ opts : Options, (NewPool 5 opts).isOk ↔ 0 ≤ opts.expiryDuration) ∧
    (∀ d : Int, newTicker d = .ok () ↔ 0 < d) ∧
    sweeperStartOf (NewPool 5 { defaultOptions with expiryDuration := 0 })
      = some (.error ()) := by
  refine ⟨?_, ?_, rfl⟩
  · intro opts
    rw [NewPool, if_neg (by omega)]
    split_ifs with h <;> simp_all [Except.isOk, Except.toBool]
  · intro d
    rw [newTicker]
    split_ifs with h <;> simp
    · omega
    · omega

/-- C4: for every sequence of setResult calls on a fresh future, only the
first call stores its pair and trips the done latch; later calls change
nothing, and Get (pure, so identical for every observer and every repeated
call) returns exactly the first stored pair once done, while before any
call Get still blocks. -/
theorem C4_future_single_shot :
    ∀ (V E : Type) (c : Option V × Option E)
      (rest : List (Option V × Option E)),
      setAll newFuture (c :: rest) = setResult newFuture c.1 c.2 ∧
      (setAll newFuture (c :: rest)).result = c.1 ∧
      (setAll newFuture (c :: rest)).err = c.2 ∧
      (setAll newFuture (c :: rest)).isDone = true ∧
      FutState.get (setAll newFuture (c :: rest)) = some (c.1, c.2) ∧
      FutState.get (newFuture : FutState V E) = none := by
  intro V E c rest
  have h1 : setResult (newFuture : FutState V E) c.1 c.2
      = { result := c.1, err := c.2, done := true, once := true } := by
    rw [setResult, newFuture, if_neg (by simp)]
  have h2 : setAll (newFuture : FutState V E) (c :: rest)
      = setResult newFuture c.1 c.2 := by
    rw [setAll, List.foldl_cons, ← setAll]
    exact setAll_once _ rest (by rw [h1])
  refine ⟨h2, ?_, ?_, ?_, ?_, ?_⟩
  · rw [h2, h1]
  · rw [h2, h1]
  · rw [h2, h1]; rfl
  · rw [h2, h1, FutState.get, if_pos rfl]
  · rw [FutState.get, newFuture, if_neg (by simp)]

/-- C7: along every trace of pushes (stamped with the current time), pops
(taking the top) and sweeps, the stack of idle workers stays in
non-decreasing lastUsed order, oldest at the head. -/
theorem C7_stack_order_invariant :
    ∀ evs : List StackEv, ((runStack evs).items).Pairwise (· ≤ ·) :=
  fun evs => (runStack_inv evs).1

/-- C3 counterexample: the ring sweep at now 10 with horizon 5 reclaims a
worker whose lastUsed is 5, exactly now - d and so not strictly earlier
than now - d, contradicting the claim that no worker with lastUsed at or
after now - d is removed. -/
theorem C3_boundary_counterexample :
    (loopQueue.refresh 10 5
        { items := [some 5], head := 0, tail := 0, size := 1,
          isFull := true }).2.1 = [5] ∧
    ¬ ((5 : Int) < 10 - 5) :=
  ⟨rfl, by decide⟩

/-- C3 amended: on a store in chronological lastUsed order, the stack sweep
removes exactly the workers with lastUsed strictly before now - d and keeps
exactly the others, while the ring sweep removes exactly the workers with
lastUsed at or before now - d, the boundary ones included, and keeps
exactly the others. -/
theorem C3_sweep_exact :
    (∀ (now d : Int) (items : List Int), items.Pairwise (· ≤ ·) →
      (workerStack.refresh now d items).1
          = items.filter (fun w => decide (w < now - d)) ∧
      (workerStack.refresh now d items).2
          = items.filter (fun w => !(decide (w < now - d)))) ∧
    (∀ (now d : Int) (q : loopQueue) (ws : List Int),
      q.WF → q.live = ws.map some → ws.Pairwise (· ≤ ·) →
      (loopQueue.refresh now d q).2.1
          = ws.filter (fun w => decide (w ≤ now - d)) ∧
      (loopQueue.refresh now d q).2.2.live
          = (ws.filter (fun w => !(decide (w ≤ now - d)))).map some) := by
  constructor
  · intro now d items hs
    have hp : ∀ x y : Int, y ≤ x → decide (x < now - d) = true →
        decide (y < now - d) = true := by
      intro x y hxy hx
      simp only [decide_eq_true_eq] at hx ⊢
      omega
    exact ⟨takeWhile_eq_filter_of_sorted _ hp items hs,
      dropWhile_eq_filter_not_of_sorted _ hp items hs⟩
  · intro now d q ws hwf hlive hs
    have hp : ∀ x y : Int, y ≤ x → decide (x ≤ now - d) = true →
        decide (y ≤ now - d) = true := by
      intro x y hxy hx
      simp only [decide_eq_true_eq] at hx ⊢
      omega
    obtain ⟨h1, h2, _⟩ := loopQueue.refresh_spec now d q ws hwf hlive
    refine ⟨?_, ?_⟩
    · rw [h1, takeWhile_eq_filter_of_sorted _ hp ws hs]
    · rw [h2, dropWhile_eq_filter_not_of_sorted _ hp ws hs]

/-- C3 witness: a stack of stamps 0 and 5 swept at now 10 with horizon 5,
and a full two-slot ring holding the same stamps. -/
theorem C3_sweep_exact_witness :
    ([0, 5] : List Int).Pairwise (· ≤ ·) ∧
    (workerStack.refresh 10 5 [0, 5]).1
        = ([0, 5] : List Int).filter (fun w => decide (w < 10 - 5)) ∧
    loopQueue.WF
      { items := [some 0, some 5], head := 0, tail := 0, size := 2,
        isFull := true } ∧
    (loopQueue.refresh 10 5
        { items := [some 0, some 5], head := 0, tail := 0, size := 2,
          isFull := true }).2.1
        = ([0, 5] : List Int).filter (fun w => decide (w ≤ 10 - 5)) :=
  ⟨by decide,
   (C3_sweep_exact.1 10 5 [0, 5] (by decide)).1,
   ⟨rfl, by decide, by decide, fun _ => rfl⟩,
   (C3_sweep_exact.2 10 5
      { items := [some 0, some 5], head := 0, tail := 0, size := 2,
        isFull := true } [0, 5]
      ⟨rfl, by decide, by decide, fun _ => rfl⟩ rfl (by decide)).1⟩

/-- C1: violated by the code.  From a fresh bounded pool of capacity 1, one
submission, one task completion, a pause of 100 ticks and one expiry sweep
reach running = -1: cleanExpiredWorkers subtracts the number of reclaimed
workers from running, and the goroutine of each reclaimed worker, released
by the closed inbox, subtracts one more in its deferred handler, so a sweep
of n idle workers lowers running by 2n and 0 <= running fails. -/
theorem C1_running_goes_negative :
    runTrace (initPool 1 false 10)
      [.submitCreate (some ()), .taskDone 0, .tick 100, .sweep, .dyingExit]
      = some { capacity := 1, nonblocking := false, expiry := 10,
               clock := 100, running := -1, closed := false, idle := [],
               busy := [], dying := 0, waiting := 0, done := 1 } ∧
    ((runTrace (initPool 1 false 10)
        [.submitCreate (some ()), .taskDone 0, .tick 100, .sweep,
         .dyingExit]).map
      (fun s => decide (0 ≤ s.running ∧ s.running ≤ s.capacity)))
      = some false := by
  constructor
  · rfl
  · rfl

/-- C2 counterexample: a blocking-mode submitter to a saturated open pool
receives Overload.  It blocks at saturation, the busy worker exits through
a panic and signals the condition variable, and the woken submitter finds
the idle store empty, so getWorker returns nil and Submit returns
ErrPoolOverload while the pool is open and not in non-blocking mode. -/
theorem C2_blocking_overload_counterexample :
    (initPool 1 false 10).nonblocking = false ∧
    (runTrace (initPool 1 false 10)
        [.submitCreate (some ()), .blockEnter, .taskPanic 0]).map
      (fun s => (s.closed, s.waiting)) = some (false, 1) ∧
    runTrace (initPool 1 false 10)
      [.submitCreate (some ()), .blockEnter, .taskPanic 0, .wakeEmpty]
      = some { capacity := 1, nonblocking := false, expiry := 10, clock := 0,
               running := 0, closed := false, idle := [], busy := [],
               dying := 0, waiting := 0, done := 0 } ∧
    Lbl.result .wakeEmpty = some .overload := by
  exact ⟨rfl, rfl, rfl, rfl⟩

/-- C2 amended: a submission returns Overload in exactly these situations:
immediately, when the pool is open, in non-blocking mode, the idle store is
empty and running has reached the bounded capacity; or after blocking, when
the woken submitter finds the store empty in an open pool, or finds the
pool closed.  So in blocking mode a submission to a saturated open pool can
still end in Overload, namely when the awaited worker exits instead of
releasing itself. -/
theorem C2_overload_exact_cases :
    ∀ (s s1 : PoolState) (l : Lbl), stepFn s l = some s1 →
      l.result = some .overload →
      (l = .submitOverload ∧ s.closed = false ∧ s.nonblocking = true ∧
        s.idle = [] ∧ s.capacity ≠ -1 ∧ s.capacity ≤ s.running) ∨
      (l = .wakeEmpty ∧ 0 < s.waiting ∧ s.closed = false ∧ s.idle = []) ∨
      (l = .wakeClosed ∧ 0 < s.waiting ∧ s.closed = true) := by
  intro s s1 l h1 h2
  cases l with
  | submitOverload =>
      left
      rw [stepFn] at h1
      split at h1
      · next hcond =>
          simp only [Bool.and_eq_true, Bool.not_eq_true', beq_iff_eq,
            beq_eq_false_iff_ne, decide_eq_true_eq,
            List.isEmpty_iff] at hcond
          obtain ⟨⟨⟨⟨hc, hi⟩, hn⟩, hcap⟩, hr⟩ := hcond
          exact ⟨rfl, hc, hn, hi, hcap, hr⟩
      · exact absurd h1 (by simp)
  | wakeEmpty =>
      right; left
      rw [stepFn] at h1
      split at h1
      · next hcond =>
          simp only [Bool.and_eq_true, Bool.not_eq_true', decide_eq_true_eq,
            List.isEmpty_iff] at hcond
          exact ⟨rfl, hcond.1.1, hcond.1.2, hcond.2⟩
      · exact absurd h1 (by simp)
  | wakeClosed =>
      right; right
      rw [stepFn] at h1
      split at h1
      · next hcond =>
          simp only [Bool.and_eq_true, decide_eq_true_eq] at hcond
          exact ⟨rfl, hcond.1, hcond.2⟩
      · exact absurd h1 (by simp)
  | tick dt => simp [Lbl.result] at h2
  | submitClosed => simp [Lbl.result] at h2
  | submitReuse t => simp [Lbl.result] at h2
  | submitCreate t => simp [Lbl.result] at h2
  | blockEnter => simp [Lbl.result] at h2
  | wakeReuse t => simp [Lbl.result] at h2
  | taskDone i => simp [Lbl.result] at h2
  | taskDoneRefused i => simp [Lbl.result] at h2
  | recvSentinel i => simp [Lbl.result] at h2
  | taskPanic i => simp [Lbl.result] at h2
  | sweep => simp [Lbl.result] at h2
  | dyingExit => simp [Lbl.result] at h2
  | releaseCall => simp [Lbl.result] at h2

/-- Saturated open pool of capacity 1 in non-blocking mode, used as the
concrete instance for the Overload case analysis. -/
def satNB : PoolState :=
  { capacity := 1, nonblocking := true, expiry := 10, clock := 0,
    running := 1, closed := false, idle := [], busy := [some ()],
    dying := 0, waiting := 0, done := 0 }

/-- C2 witness: the non-blocking saturation case at a concrete state. -/
theorem C2_overload_exact_cases_witness :
    stepFn satNB .submitOverload = some satNB ∧
    Lbl.result .submitOverload = some SubmitRes.overload ∧
    ((Lbl.submitOverload = Lbl.submitOverload ∧ satNB.closed = false ∧
        satNB.nonblocking = true ∧ satNB.idle = [] ∧ satNB.capacity ≠ -1 ∧
        satNB.capacity ≤ satNB.running) ∨
      (Lbl.submitOverload = Lbl.wakeEmpty ∧ 0 < satNB.waiting ∧
        satNB.closed = false ∧ satNB.idle = []) ∨
      (Lbl.submitOverload = Lbl.wakeClosed ∧ 0 < satNB.waiting ∧
        satNB.closed = true)) :=
  ⟨rfl, rfl, C2_overload_exact_cases satNB satNB .submitOverload rfl rfl⟩

/-- C5: after Release the pool is closed, a second Release changes nothing
(the compare-and-swap fails), and every submission entered afterwards takes
only the closed path, which returns ErrPoolClosed and leaves the state
unchanged, enqueuing nothing; every other submission-entry path is
disabled. -/
theorem C5_release_closed_and_idempotent :
    ∀ s : PoolState,
      (releaseFn s).closed = true ∧
      releaseFn (releaseFn s) = releaseFn s ∧
      stepFn (releaseFn s) .submitClosed = some (releaseFn s) ∧
      Lbl.result .submitClosed = some SubmitRes.closedErr ∧
      (∀ l : Lbl, l.isSubmitEntry = true → l ≠ .submitClosed →
        stepFn (releaseFn s) l = none) := by
  intro s
  have hcl : (releaseFn s).closed = true := by
    rw [releaseFn]
    split_ifs with h
    · exact h
    · rfl
  refine ⟨hcl, ?_, ?_, rfl, ?_⟩
  · conv_lhs => rw [releaseFn]
    rw [if_pos hcl]
  · simp only [stepFn]
    rw [if_pos hcl]
  · intro l hentry hneq
    cases l with
    | submitClosed => exact absurd rfl hneq
    | submitReuse t => simp [stepFn, hcl]
    | submitCreate t => simp [stepFn, hcl]
    | submitOverload => simp [stepFn, hcl]
    | blockEnter => simp [stepFn, hcl]
    | tick dt => simp [Lbl.isSubmitEntry] at hentry
    | wakeReuse t => simp [Lbl.isSubmitEntry] at hentry
    | wakeEmpty => simp [Lbl.isSubmitEntry] at hentry
    | wakeClosed => simp [Lbl.isSubmitEntry] at hentry
    | taskDone i => simp [Lbl.isSubmitEntry] at hentry
    | taskDoneRefused i => simp [Lbl.isSubmitEntry] at hentry
    | recvSentinel i => simp [Lbl.isSubmitEntry] at hentry
    | taskPanic i => simp [Lbl.isSubmitEntry] at hentry
    | sweep => simp [Lbl.isSubmitEntry] at hentry
    | dyingExit => simp [Lbl.isSubmitEntry] at hentry
    | releaseCall => simp [Lbl.isSubmitEntry] at hentry

/-- C5 witness: a submission that would reuse a worker is disabled on a
released fresh pool. -/
theorem C5_release_closed_and_idempotent_witness :
    Lbl.isSubmitEntry (Lbl.submitReuse none) = true ∧
    Lbl.submitReuse none ≠ Lbl.submitClosed ∧
    stepFn (releaseFn (initPool 1 false 10)) (Lbl.submitReuse none) = none :=
  ⟨rfl, by decide,
   (C5_release_closed_and_idempotent (initPool 1 false 10)).2.2.2.2
     (Lbl.submitReuse none) rfl (by decide)⟩

/-- C10: on an open pool with an idle worker available, Submit with the nil
callable is accepted with a nil error, but the receiving worker reads the
termination sentinel from its inbox: its loop returns without executing
anything, the worker never re-enters the idle store and running drops by
one.  The Invoke path of the function pool is the same protocol with a nil
argument. -/
theorem C10_nil_submission_destroys_worker :
    ∀ (s : PoolState) (l : List Int) (w : Int),
      s.closed = false → s.idle = l ++ [w] →
      Lbl.result (Lbl.submitReuse none) = some SubmitRes.ok ∧
      stepFn s (.submitReuse none)
        = some { s with idle := l, busy := none :: s.busy } ∧
      stepFn { s with idle := l, busy := none :: s.busy } (.recvSentinel 0)
        = some { s with idle := l, running := s.running - 1 } ∧
      ({ s with idle := l, running := s.running - 1 }).done = s.done := by
  intro s l w hcl hidle
  refine ⟨rfl, ?_, ?_, rfl⟩
  · simp [stepFn, hcl, hidle, workerStack.detach]
  · simp [stepFn]

/-- Open pool holding one idle worker, the concrete instance for the nil
submission scenario. -/
def idleOne : PoolState :=
  { capacity := 1, nonblocking := false, expiry := 10, clock := 5,
    running := 1, closed := false, idle := [0], busy := [], dying := 0,
    waiting := 0, done := 0 }

/-- C10 witness: the nil submission scenario on the concrete one-worker
pool. -/
theorem C10_nil_submission_destroys_worker_witness :
    idleOne.closed = false ∧ idleOne.idle = [] ++ [0] ∧
    (Lbl.result (Lbl.submitReuse none) = some SubmitRes.ok ∧
      stepFn idleOne (.submitReuse none)
        = some { idleOne with idle := [], busy := none :: idleOne.busy } ∧
      stepFn { idleOne with idle := [], busy := none :: idleOne.busy }
          (.recvSentinel 0)
        = some { idleOne with idle := [], running := idleOne.running - 1 } ∧
      ({ idleOne with idle := [], running := idleOne.running - 1 }).done
        = idleOne.done) :=
  ⟨rfl, rfl, C10_nil_submission_destroys_worker idleOne [] 0 rfl rfl⟩

end Laborer
